import Mathlib

/-!
Verification development for the monitored-transaction engine of
zkevm-ethtx-manager.  The Go sources are shallowly embedded: hashes and
addresses become `Nat`, `*big.Int` fields become `Int` (or `Option Nat`
where nil-ness is load-bearing), byte slices become `List Nat`, Go maps
iterated by `range` become lists whose order stands for one possible
iteration order, and every RPC / clock interaction becomes an explicit
environment value.  Fallible Go functions return `Except Unit _` or pair
their result with an `Option StorageError`.
-/

namespace EthTxManager

/-- Status literals of a monitored tx (monitoredtx.go, MonitoredTxStatus*). -/
inductive MonitoredTxStatus where
  | created
  | sent
  | failed
  | mined
  | safe
  | finalized
deriving DecidableEq, Repr

/-- The monitoredTx record (monitoredtx.go).  `blobSidecar` keeps only the
presence of the `*types.BlobTxSidecar` pointer; `blockNumber = none` models a
nil `*big.Int`; `history` lists the keys of the Go `map[common.Hash]bool` in
one iteration order. -/
structure MonitoredTx where
  id : Nat
  sender : Nat
  toAddr : Option Nat
  nonce : Nat
  value : Int
  data : List Nat
  gas : Nat
  gasOffset : Nat
  gasPrice : Int
  blobSidecar : Bool
  blobGas : Nat
  blobGasPrice : Int
  gasTipCap : Int
  status : MonitoredTxStatus
  blockNumber : Option Nat
  history : List Nat
  createdAt : Nat
  updatedAt : Nat
  estimateGas : Bool
deriving DecidableEq, Repr

/-- Domain storage errors (ethtxmanager.go: ErrNotFound, ErrAlreadyExists). -/
inductive StorageError where
  | alreadyExists
  | notFound
deriving DecidableEq, Repr

/-- A convenient base record for building concrete transactions in examples. -/
def defaultTx : MonitoredTx :=
  { id := 0, sender := 0, toAddr := none, nonce := 0, value := 0, data := [],
    gas := 0, gasOffset := 0, gasPrice := 0, blobSidecar := false,
    blobGas := 0, blobGasPrice := 0, gasTipCap := 0,
    status := MonitoredTxStatus.created, blockNumber := none, history := [],
    createdAt := 0, updatedAt := 0, estimateGas := false }

/-- MemStorage.Add (memstorage.go:70-80): stamp CreatedAt, fail with
ErrAlreadyExists when the id is already a key of the map, otherwise insert.
The map is modelled as a list keyed by `id`; on the error path the map is
untouched because the Go code returns before the write. -/
def memAdd (store : List MonitoredTx) (mTx : MonitoredTx) (now : Nat) :
    Option StorageError × List MonitoredTx :=
  let mTx := { mTx with createdAt := now }
  if store.any (fun t => t.id == mTx.id) then
    (some StorageError.alreadyExists, store)
  else
    (none, store ++ [mTx])

/-- SqlStorage.Add (sqlstorage.go:100-117): stamps CreatedAt = UpdatedAt,
and a primary-key constraint violation surfaces an already-exists error
while the INSERT writes nothing. -/
def sqlAdd (store : List MonitoredTx) (mTx : MonitoredTx) (now : Nat) :
    Option StorageError × List MonitoredTx :=
  let mTx := { mTx with createdAt := now, updatedAt := now }
  if store.any (fun t => t.id == mTx.id) then
    (some StorageError.alreadyExists, store)
  else
    (none, store ++ [mTx])

/-- MemStorage.Update (memstorage.go:153-164): stamp UpdatedAt, fail with
ErrNotFound when the id is absent, otherwise replace the row. -/
def memUpdate (store : List MonitoredTx) (mTx : MonitoredTx) (now : Nat) :
    Option StorageError × List MonitoredTx :=
  let mTx := { mTx with updatedAt := now }
  if store.any (fun t => t.id == mTx.id) then
    (none, store.map (fun t => if t.id == mTx.id then mTx else t))
  else
    (some StorageError.notFound, store)

/-- A transaction receipt as the engine reads it: success flag
(`receipt.Status == types.ReceiptStatusSuccessful`) and block number. -/
structure ReceiptView where
  successful : Bool
  blockNumber : Nat
deriving DecidableEq, Repr

/-- Outcome of etherman.GetRevertMessage as inspected by
shouldContinueToMonitorThisTx: a decoded revert string (err == nil), the
opaque ErrExecutionReverted sentinel, or any other error. -/
inductive RevertOutcome where
  | decoded (msg : String)
  | executionReverted
  | otherError
deriving DecidableEq, Repr

/-- The environment consumed by shouldContinueToMonitorThisTx: the receipt
under scrutiny, whether etherman.GetTx on its hash succeeded, and the
revert-message outcome. -/
structure ContinueEnv where
  receipt : ReceiptView
  getTxOk : Bool
  revert : RevertOutcome
deriving DecidableEq, Repr

/-- Client.shouldContinueToMonitorThisTx (ethtxmanager.go:787-809):
successful receipt → false; GetTx error → false; revert decoding returning
the ErrExecutionReverted sentinel → true; decoded reason or other error →
false. -/
def shouldContinueToMonitorThisTx (env : ContinueEnv) : Bool :=
  if env.receipt.successful then
    false
  else if !env.getTxOk then
    false
  else
    match env.revert with
    | RevertOutcome.decoded _ => false
    | RevertOutcome.executionReverted => true
    | RevertOutcome.otherError => false

/-- The filter step of MemStorage.GetByBlock (memstorage.go:140-148) for one
row: `none` models the Go panic raised by `mTx.BlockNumber.Uint64()` when
`BlockNumber` is nil, `some keep` the normal outcome.  The nil dereference
happens only behind the short-circuiting `fromBlock != nil` / `toBlock != nil`
guards, exactly as in the source. -/
def getByBlockKeep (mTx : MonitoredTx) (fromBlock toBlock : Option Nat) :
    Option Bool :=
  match fromBlock with
  | some fb =>
    match mTx.blockNumber with
    | none => none
    | some bn =>
      if bn % 2 ^ 64 < fb then some false
      else
        match toBlock with
        | some tb =>
          match mTx.blockNumber with
          | none => none
          | some bn2 => if bn2 % 2 ^ 64 > tb then some false else some true
        | none => some true
  | none =>
    match toBlock with
    | some tb =>
      match mTx.blockNumber with
      | none => none
      | some bn => if bn % 2 ^ 64 > tb then some false else some true
    | none => some true

/-- MemStorage.GetByBlock (memstorage.go:136-150), with `none` propagating
the panic of any row filter step. -/
def memGetByBlock : List MonitoredTx → Option Nat → Option Nat →
    Option (List MonitoredTx)
  | [], _, _ => some []
  | mTx :: rest, fromBlock, toBlock => do
    let keep ← getByBlockKeep mTx fromBlock toBlock
    let tail ← memGetByBlock rest fromBlock toBlock
    pure (if keep then mTx :: tail else tail)

/-- Wrap-around subtraction of two uint64 values (Go `a - b` on uint64). -/
def sub64 (a b : Nat) : Nat := (a % 2 ^ 64 + 2 ^ 64 - b % 2 ^ 64) % 2 ^ 64

/-- The two confirmation-depth configuration knobs (config.go). -/
structure StaircaseConfig where
  safeStatusL1NumberOfBlocks : Nat
  finalizedStatusL1NumberOfBlocks : Nat
deriving DecidableEq, Repr

/-- Chain observations consumed by the two promotion sweeps: the latest block
number and the network-reported safe / finalized block numbers. -/
structure StaircaseEnv where
  latestBlockNumber : Nat
  networkSafeBlockNumber : Nat
  networkFinalizedBlockNumber : Nat
deriving DecidableEq, Repr

/-- The safe threshold computed by Client.waitMinedTxToBeSafe
(ethtxmanager.go:507-522): when SafeStatusL1NumberOfBlocks > 0 it is
latest − SafeStatusL1NumberOfBlocks, otherwise the network safe block. -/
def safeBlockThreshold (cfg : StaircaseConfig) (env : StaircaseEnv) : Nat :=
  if cfg.safeStatusL1NumberOfBlocks > 0 then
    sub64 env.latestBlockNumber cfg.safeStatusL1NumberOfBlocks
  else
    env.networkSafeBlockNumber

/-- The finalized threshold computed by Client.waitSafeTxToBeFinalized
(ethtxmanager.go:550-565).  Note: the source gates on
`c.cfg.SafeStatusL1NumberOfBlocks > 0` while the subtrahend is
`c.cfg.FinalizedStatusL1NumberOfBlocks`. -/
def finalizedBlockThreshold (cfg : StaircaseConfig) (env : StaircaseEnv) : Nat :=
  if cfg.safeStatusL1NumberOfBlocks > 0 then
    sub64 env.latestBlockNumber cfg.finalizedStatusL1NumberOfBlocks
  else
    env.networkFinalizedBlockNumber

/-- Modelled from the spec (§4.F): the finalized sweep has the same shape as
the safe sweep, with finalized_l1_number_of_blocks deciding between
latest − finalized_l1_number_of_blocks and the network finalized block. -/
def specFinalizedBlockThreshold (cfg : StaircaseConfig) (env : StaircaseEnv) : Nat :=
  if cfg.finalizedStatusL1NumberOfBlocks > 0 then
    sub64 env.latestBlockNumber cfg.finalizedStatusL1NumberOfBlocks
  else
    env.networkFinalizedBlockNumber

/-- The writes performed by Client.waitMinedTxToBeSafe (ethtxmanager.go:524-534):
every stored intent at status mined whose block number is at most the safe
threshold is persisted again at status safe.  Mined rows always carry a block
number; `getD 0` stands for the `BlockNumber.Uint64()` read. -/
def minedToSafeWrites (store : List MonitoredTx) (cfg : StaircaseConfig)
    (env : StaircaseEnv) : List MonitoredTx :=
  (store.filter (fun t => t.status == MonitoredTxStatus.mined)).filterMap
    (fun t =>
      if t.blockNumber.getD 0 % 2 ^ 64 ≤ safeBlockThreshold cfg env then
        some { t with status := MonitoredTxStatus.safe }
      else none)

/-- The writes performed by Client.waitSafeTxToBeFinalized
(ethtxmanager.go:567-577): every stored intent at status safe whose block
number is at most the finalized threshold is persisted at status finalized. -/
def safeToFinalizedWrites (store : List MonitoredTx) (cfg : StaircaseConfig)
    (env : StaircaseEnv) : List MonitoredTx :=
  (store.filter (fun t => t.status == MonitoredTxStatus.safe)).filterMap
    (fun t =>
      if t.blockNumber.getD 0 % 2 ^ 64 ≤ finalizedBlockThreshold cfg env then
        some { t with status := MonitoredTxStatus.finalized }
      else none)

/-- A safe intent observed at block 90 (for the C8 failing input). -/
def txSafe90 : MonitoredTx :=
  { defaultTx with id := 3, status := MonitoredTxStatus.safe, blockNumber := some 90 }

/-- Failing configuration for C8: the safe depth is configured (5) but the
finalized depth is left 0, which per config.go means "use the network
default". -/
def cfgC8 : StaircaseConfig :=
  { safeStatusL1NumberOfBlocks := 5, finalizedStatusL1NumberOfBlocks := 0 }

/-- Chain state for the C8 failing input. -/
def envC8 : StaircaseEnv :=
  { latestBlockNumber := 100, networkSafeBlockNumber := 95,
    networkFinalizedBlockNumber := 80 }

/-- C8: the safe-to-finalized sweep does not have the claimed shape.  With
SafeStatusL1NumberOfBlocks = 5, FinalizedStatusL1NumberOfBlocks = 0,
latest = 100 and network finalized = 80, the code computes the finalized
threshold as latest − 0 = 100 (the gate tests the safe knob, the subtrahend
is the finalized knob) and promotes a safe intent at block 90, while the
claimed threshold is the network finalized block 80, under which block 90
would not be promoted. -/
theorem finalized_threshold_uses_safe_gate :
    finalizedBlockThreshold cfgC8 envC8 = 100 ∧
    specFinalizedBlockThreshold cfgC8 envC8 = 80 ∧
    safeToFinalizedWrites [txSafe90] cfgC8 envC8 =
      [{ txSafe90 with status := MonitoredTxStatus.finalized }] ∧
    ¬ 90 ≤ specFinalizedBlockThreshold cfgC8 envC8 := by
  refine ⟨?_, ?_, ?_, ?_⟩ <;> decide

/-- C1: for every store state and every intent, when an intent with the same
fingerprint (id) is already stored, Add returns the AlreadyExists error and
the store is returned unchanged — same rows, same count, no field mutated —
for both the in-memory and the SQL-backed store. -/
theorem memAdd_duplicate_alreadyExists
    (store : List MonitoredTx) (mTx old : MonitoredTx) (now : Nat)
    (hold : old ∈ store) (hid : old.id = mTx.id) :
    (memAdd store mTx now).1 = some StorageError.alreadyExists ∧
    (memAdd store mTx now).2 = store ∧
    (sqlAdd store mTx now).1 = some StorageError.alreadyExists ∧
    (sqlAdd store mTx now).2 = store := by
  have hany : store.any (fun t => t.id == mTx.id) = true := by
    refine List.any_eq_true.mpr ⟨old, hold, ?_⟩
    simp [hid]
  constructor
  · simp [memAdd, hany]
  constructor
  · simp [memAdd, hany]
  constructor
  · simp [sqlAdd, hany]
  · simp [sqlAdd, hany]

/-- Witness for C1 at a concrete store. -/
theorem memAdd_duplicate_alreadyExists_witness :
    (memAdd [defaultTx] defaultTx 7).1 = some StorageError.alreadyExists ∧
    (memAdd [defaultTx] defaultTx 7).2 = [defaultTx] ∧
    (sqlAdd [defaultTx] defaultTx 7).1 = some StorageError.alreadyExists ∧
    (sqlAdd [defaultTx] defaultTx 7).2 = [defaultTx] :=
  memAdd_duplicate_alreadyExists [defaultTx] defaultTx defaultTx 7
    (by simp) rfl

/-- C7: shouldContinueToMonitor(receipt) is true exactly when the receipt
status is failed, the transaction fetch succeeded, and the revert-reason
decoding came back as the opaque ExecutionReverted sentinel; every other
failed-receipt case (decoded revert string, tx-fetch error) and every
successful receipt yields false. -/
theorem shouldContinueToMonitor_iff (env : ContinueEnv) :
    shouldContinueToMonitorThisTx env = true ↔
      env.receipt.successful = false ∧ env.getTxOk = true ∧
      env.revert = RevertOutcome.executionReverted := by
  unfold shouldContinueToMonitorThisTx
  rcases env with ⟨⟨succ, bn⟩, getTxOk, revert⟩
  cases succ <;> cases getTxOk <;> cases revert <;> simp

/-- The row filter of GetByBlock never panics on a row carrying a block
number. -/
theorem getByBlockKeep_isSome (t : MonitoredTx) (fb tb : Option Nat)
    (h : t.blockNumber ≠ none) : (getByBlockKeep t fb tb).isSome := by
  unfold getByBlockKeep
  rcases hbn : t.blockNumber with _ | bn
  · exact absurd hbn h
  · rcases fb with _ | fbv <;> rcases tb with _ | tbv <;>
      simp [hbn] <;> (try split) <;> (try simp) <;> (try split) <;> (try simp)

/-- The row filter of GetByBlock panics on a nil block number as soon as one
bound is set. -/
theorem getByBlockKeep_none (t : MonitoredTx) (fb tb : Option Nat)
    (h : t.blockNumber = none) (hb : fb ≠ none ∨ tb ≠ none) :
    getByBlockKeep t fb tb = none := by
  unfold getByBlockKeep
  rcases fb with _ | fbv <;> rcases tb with _ | tbv <;> simp [h] at hb ⊢

/-- C10: MemStorage.GetByBlock is total exactly under the claimed
precondition — with both bounds open it returns the whole store, with every
stored row carrying a block number it returns a result, and any store holding
a row whose BlockNumber is nil (as every created or sent intent is stored)
makes any call with a set bound hit the nil dereference (modelled as `none`),
so the panic is reachable from the public store interface. -/
theorem getByBlock_nil_blockNumber_panics :
    (∀ store : List MonitoredTx, memGetByBlock store none none = some store) ∧
    (∀ (store : List MonitoredTx) (fb tb : Option Nat),
      (∀ t ∈ store, t.blockNumber ≠ none) → (memGetByBlock store fb tb).isSome) ∧
    (∀ (store : List MonitoredTx) (fb tb : Option Nat) (t : MonitoredTx),
      t ∈ store → t.blockNumber = none → (fb ≠ none ∨ tb ≠ none) →
      memGetByBlock store fb tb = none) := by
  refine ⟨?_, ?_, ?_⟩
  · intro store
    induction store with
    | nil => rfl
    | cons x rest ih => simp [memGetByBlock, getByBlockKeep, ih]
  · intro store fb tb h
    induction store with
    | nil => simp [memGetByBlock]
    | cons x rest ih =>
      have hx : (getByBlockKeep x fb tb).isSome :=
        getByBlockKeep_isSome x fb tb (h x (by simp))
      have hr : (memGetByBlock rest fb tb).isSome := by
        refine ih ?_
        intro t ht
        exact h t (by simp [ht])
      rcases Option.isSome_iff_exists.mp hx with ⟨keep, hkeep⟩
      rcases Option.isSome_iff_exists.mp hr with ⟨tail, htail⟩
      simp [memGetByBlock, hkeep, htail]
  · intro store fb tb t hmem hnil hb
    induction store with
    | nil => simp at hmem
    | cons x rest ih =>
      rcases List.mem_cons.mp hmem with hx | hx
      · subst hx
        simp [memGetByBlock, getByBlockKeep_none t fb tb hnil hb]
      · have hr := ih hx
        cases hkeep : getByBlockKeep x fb tb with
        | none => simp [memGetByBlock, hkeep]
        | some keep => simp [memGetByBlock, hkeep, hr]

/-- Witness for C10: a store holding a block-less (created) intent panics
under a set lower bound, while a store of mined rows does not. -/
theorem getByBlock_nil_blockNumber_panics_witness :
    memGetByBlock [defaultTx] (some 1) none = none ∧
    (memGetByBlock [{ defaultTx with blockNumber := some 5 }]
      (some 1) (some 9)).isSome :=
  ⟨getByBlock_nil_blockNumber_panics.2.2 [defaultTx] (some 1) none defaultTx
      (by simp) rfl (Or.inl (by simp)),
    getByBlock_nil_blockNumber_panics.2.1 [{ defaultTx with blockNumber := some 5 }]
      (some 1) (some 9) (by intro t ht; simp at ht; simp [ht])⟩

/-- RPC outcomes consumed by Client.reviewMonitoredTx in one call: the
adjusted suggested gas price (margin factor and limit already applied by
suggestedGasPrice), the blob fee cap computed from the parent header via
eip4844.CalcBlobFee, the suggested gas tip cap, and the two gas estimates. -/
structure ReviewEnv where
  suggestedGasPrice : Except Unit Int
  headerBlobFeeCap : Except Unit Int
  suggestGasTipCap : Except Unit Int
  estimateGas : Except Unit Nat
  estimateGasBlobTx : Except Unit Nat
deriving Repr

/-- Client.reviewMonitoredTx (ethtxmanager.go:814-894): fetch the suggested
gas price and replace the stored one when strictly greater; for blob intents
additionally refresh GasTipCap and BlobGasPrice when strictly greater and
estimate via EstimateGasBlobTx, otherwise estimate via EstimateGas; any
estimation error is returned as is; finally overwrite Gas only when the new
estimate is strictly greater.  The source performs the in-place field
mutations one at a time; since no condition reads a field an earlier mutation
wrote, they are merged here into a single record update per branch. -/
def reviewMonitoredTx (mTx : MonitoredTx) (env : ReviewEnv) :
    Except Unit MonitoredTx := do
  let gasPrice ← env.suggestedGasPrice
  let newGasPrice := if gasPrice > mTx.gasPrice then gasPrice else mTx.gasPrice
  if mTx.blobSidecar then do
    let blobFeeCap ← env.headerBlobFeeCap
    let gasTipCap ← env.suggestGasTipCap
    let newGasTipCap := if gasTipCap > mTx.gasTipCap then gasTipCap else mTx.gasTipCap
    let newBlobGasPrice :=
      if blobFeeCap > mTx.blobGasPrice then blobFeeCap else mTx.blobGasPrice
    let gas ← env.estimateGasBlobTx
    let newGas := if gas > mTx.gas then gas else mTx.gas
    Except.ok { mTx with gasPrice := newGasPrice, gasTipCap := newGasTipCap,
                         blobGasPrice := newBlobGasPrice, gas := newGas }
  else do
    let gas ← env.estimateGas
    let newGas := if gas > mTx.gas then gas else mTx.gas
    Except.ok { mTx with gasPrice := newGasPrice, gas := newGas }

/-- The estimate the reviewer consults for a given intent: the blob-aware
variant when a sidecar is present, the plain one otherwise. -/
def reviewEstimate (mTx : MonitoredTx) (env : ReviewEnv) : Except Unit Nat :=
  if mTx.blobSidecar then env.estimateGasBlobTx else env.estimateGas

/-- A sent, non-blob intent whose caller pinned the gas (EstimateGas = false). -/
def txC3 : MonitoredTx :=
  { defaultTx with
    id := 10, status := MonitoredTxStatus.sent, gas := 100,
    gasPrice := 10, estimateGas := false }

/-- Review environment for the C3 counterexample: the network estimate came
back strictly greater than the stored gas. -/
def envC3 : ReviewEnv :=
  { suggestedGasPrice := Except.ok 1, headerBlobFeeCap := Except.ok 0,
    suggestGasTipCap := Except.ok 0, estimateGas := Except.ok 200,
    estimateGasBlobTx := Except.ok 0 }

/-- Counterexample to C3: the reviewer re-estimates and overwrites the Gas
field of a sent intent even though its EstimateGas flag is false — the
source has no EstimateGas guard around the estimation. -/
theorem review_updates_gas_despite_estimateGas_false :
    txC3.estimateGas = false ∧ txC3.gas = 100 ∧
    reviewMonitoredTx txC3 envC3 = Except.ok { txC3 with gas := 200 } := by
  refine ⟨rfl, rfl, ?_⟩ ; rfl

/-- C3 amended: the per-tick fee review re-estimates gas for every sent
intent regardless of the EstimateGas flag, and overwrites Gas exactly when
the new estimate is strictly greater than the stored value (the flag itself
is never mutated). -/
theorem review_gas_update_iff_strict_increase
    (mTx mTx' : MonitoredTx) (env : ReviewEnv)
    (h : reviewMonitoredTx mTx env = Except.ok mTx') :
    ∃ g, reviewEstimate mTx env = Except.ok g ∧
      mTx'.gas = (if mTx.gas < g then g else mTx.gas) ∧
      mTx'.estimateGas = mTx.estimateGas := by
  unfold reviewMonitoredTx at h
  unfold reviewEstimate
  cases hsp : env.suggestedGasPrice with
  | error e => simp [hsp, Bind.bind, Except.bind] at h
  | ok gp =>
    simp only [hsp, Bind.bind, Except.bind] at h
    by_cases hblob : mTx.blobSidecar
    · simp only [hblob, if_true] at h ⊢
      cases hbf : env.headerBlobFeeCap with
      | error e => simp [hbf] at h
      | ok bf =>
        simp only [hbf] at h
        cases htc : env.suggestGasTipCap with
        | error e => simp [htc] at h
        | ok tc =>
          simp only [htc] at h
          cases hest : env.estimateGasBlobTx with
          | error e => simp [hest] at h
          | ok g =>
            refine ⟨g, rfl, ?_⟩
            simp only [hest, Except.ok.injEq] at h
            subst h
            refine ⟨?_, rfl⟩
            simp [gt_iff_lt]
    · simp only [hblob, Bool.false_eq_true, if_false] at h ⊢
      cases hest : env.estimateGas with
      | error e => simp [hest] at h
      | ok g =>
        refine ⟨g, rfl, ?_⟩
        simp only [hest, Except.ok.injEq] at h
        subst h
        refine ⟨?_, rfl⟩
        simp [gt_iff_lt]

/-- Witness for the amended C3 at the concrete counterexample input. -/
theorem review_gas_update_iff_strict_increase_witness :
    ∃ g, reviewEstimate txC3 envC3 = Except.ok g ∧
      ({ txC3 with gas := 200 } : MonitoredTx).gas
        = (if txC3.gas < g then g else txC3.gas) ∧
      ({ txC3 with gas := 200 } : MonitoredTx).estimateGas = txC3.estimateGas :=
  review_gas_update_iff_strict_increase txC3 { txC3 with gas := 200 } envC3 (by rfl)

/-- Configuration knobs consumed by Client.Add and the nonce logic
(config.go): the forced gas fallback. -/
structure EngineConfig where
  forcedGas : Nat
deriving DecidableEq, Repr

/-- RPC outcomes consumed by one Client.Add call (the id of the assembled
transaction is provided as `txHash` since transaction hashing is outside the
model). -/
structure AddEnv where
  pendingNonce : Except Unit Nat
  suggestedGasPrice : Except Unit Int
  headerBlobFeeCap : Except Unit Int
  suggestGasTipCap : Except Unit Int
  estimateGas : Except Unit Nat
  estimateGasBlobTx : Except Unit Nat
  txHash : Nat
deriving Repr

/-- Caller-side arguments of Client.Add. -/
structure AddParams where
  toAddr : Option Nat
  forcedNonce : Option Nat
  value : Int
  data : List Nat
  gasOffset : Nat
  sidecar : Bool
deriving Repr

/-- The created-status rows of the store, as fetched by
GetByStatus([created]) inside getTxNonce (the max fold below is insensitive
to their order). -/
def createdOf (store : List MonitoredTx) : List MonitoredTx :=
  store.filter (fun t => t.status == MonitoredTxStatus.created)

/-- The maximum-nonce loop of getTxNonce (ethtxmanager.go:170-177): a fold
starting from 0 keeping the larger nonce. -/
def maxNonceFold (l : List MonitoredTx) : Nat :=
  l.foldl (fun nonce t => if t.nonce > nonce then t.nonce else nonce) 0

/-- Client.getTxNonce (ethtxmanager.go:163-188): when created-status intents
exist, the next nonce is their maximum nonce plus one; otherwise it is the
pending nonce from the RPC. -/
def getTxNonce (store : List MonitoredTx) (env : AddEnv) : Except Unit Nat :=
  if (createdOf store).length > 0 then
    Except.ok (maxNonceFold (createdOf store) + 1)
  else
    env.pendingNonce

/-- Client.reviewMonitoredTxNonce (ethtxmanager.go:902-917): fetch the next
nonce via getTxNonce and overwrite the stored nonce only when strictly
greater. -/
def reviewMonitoredTxNonce (mTx : MonitoredTx) (store : List MonitoredTx)
    (env : AddEnv) : Except Unit MonitoredTx := do
  let nonce ← getTxNonce store env
  Except.ok (if nonce > mTx.nonce then { mTx with nonce := nonce } else mTx)

/-- Client.Add (ethtxmanager.go:191-323): pick the nonce (forced or via
getTxNonce), fetch the suggested gas price, then estimate gas.  In the blob
branch an estimation error is propagated and the fee fields get a ×10 margin
with gas ×1.2; in the plain branch an estimation error is replaced by
cfg.ForcedGas when that is positive and propagated otherwise.  The assembled
intent (status created, empty history, nil block number) is inserted through
the store Add, whose duplicate-fingerprint error is propagated.  BlobGas is
kept 0 as the claims never consult it. -/
def clientAdd (cfg : EngineConfig) (store : List MonitoredTx) (p : AddParams)
    (env : AddEnv) (sender now : Nat) :
    Except Unit (MonitoredTx × List MonitoredTx) := do
  let nonce ←
    match p.forcedNonce with
    | none => getTxNonce store env
    | some n => Except.ok n
  let gasPrice ← env.suggestedGasPrice
  let (gasTipCap, gasPrice, blobFeeCap, gas) ←
    if p.sidecar then do
      let blobFeeCap ← env.headerBlobFeeCap
      let gasTipCap ← env.suggestGasTipCap
      let gas ← env.estimateGasBlobTx
      Except.ok (gasTipCap * 10, gasPrice * 10, blobFeeCap * 10, gas * 12 / 10)
    else do
      let gas ←
        match env.estimateGas with
        | Except.ok g => Except.ok g
        | Except.error e =>
          if cfg.forcedGas > 0 then Except.ok cfg.forcedGas else Except.error e
      Except.ok ((0 : Int), gasPrice, (0 : Int), gas)
  let mTx : MonitoredTx :=
    { id := env.txHash, sender := sender, toAddr := p.toAddr,
      nonce := nonce, value := p.value, data := p.data,
      gas := gas, gasOffset := p.gasOffset, gasPrice := gasPrice,
      blobSidecar := p.sidecar, blobGas := 0, blobGasPrice := blobFeeCap,
      gasTipCap := gasTipCap, status := MonitoredTxStatus.created,
      blockNumber := none, history := [],
      createdAt := 0, updatedAt := 0, estimateGas := false }
  match memAdd store mTx now with
  | (some _, _) => Except.error ()
  | (none, newStore) => Except.ok ({ mTx with createdAt := now }, newStore)

/-- Forced gas configured for the C4 counterexample. -/
def cfgC4 : EngineConfig := { forcedGas := 500 }

/-- Blob-carrying Add parameters for the C4 counterexample. -/
def pBlobC4 : AddParams :=
  { toAddr := some 2, forcedNonce := some 1, value := 0, data := [],
    gasOffset := 0, sidecar := true }

/-- Add environment for the C4 counterexample: every RPC succeeds except the
blob gas estimation. -/
def envC4 : AddEnv :=
  { pendingNonce := Except.ok 0, suggestedGasPrice := Except.ok 1,
    headerBlobFeeCap := Except.ok 1, suggestGasTipCap := Except.ok 1,
    estimateGas := Except.ok 0, estimateGasBlobTx := Except.error (),
    txHash := 99 }

/-- Counterexample to C4: adding a blob-carrying intent whose gas estimation
fails returns the error even though forced_gas = 500 is configured — the
ForcedGas fallback exists only in the non-blob branch of Add. -/
theorem add_blob_forcedGas_not_substituted :
    cfgC4.forcedGas = 500 ∧
    clientAdd cfgC4 [] pBlobC4 envC4 0 0 = Except.error () :=
  ⟨rfl, rfl⟩

/-- C4 amended: the forced_gas substitution happens exactly in the non-blob
branch of Add — there a failed estimation is replaced by forced_gas > 0 and
the call continues, or propagates when forced_gas = 0 — while the
blob-carrying Add branch and the reviewer re-estimation propagate the
estimation error whatever forced_gas is. -/
theorem forcedGas_only_nonblob_add :
    (∀ (cfg : EngineConfig) (store : List MonitoredTx) (p : AddParams)
        (env : AddEnv) (sender now : Nat) (n : Nat) (gp : Int),
      p.sidecar = false → p.forcedNonce = some n →
      env.suggestedGasPrice = Except.ok gp →
      env.estimateGas = Except.error () → 0 < cfg.forcedGas →
      store.any (fun t => t.id == env.txHash) = false →
      (clientAdd cfg store p env sender now).isOk = true ∧
      (∀ res, clientAdd cfg store p env sender now = Except.ok res →
        res.1.gas = cfg.forcedGas)) ∧
    (∀ (cfg : EngineConfig) (store : List MonitoredTx) (p : AddParams)
        (env : AddEnv) (sender now : Nat) (n : Nat) (gp : Int),
      p.sidecar = false → p.forcedNonce = some n →
      env.suggestedGasPrice = Except.ok gp →
      env.estimateGas = Except.error () → cfg.forcedGas = 0 →
      clientAdd cfg store p env sender now = Except.error ()) ∧
    (∀ (cfg : EngineConfig) (store : List MonitoredTx) (p : AddParams)
        (env : AddEnv) (sender now : Nat) (n : Nat) (gp bf tc : Int),
      p.sidecar = true → p.forcedNonce = some n →
      env.suggestedGasPrice = Except.ok gp →
      env.headerBlobFeeCap = Except.ok bf →
      env.suggestGasTipCap = Except.ok tc →
      env.estimateGasBlobTx = Except.error () →
      clientAdd cfg store p env sender now = Except.error ()) ∧
    (∀ (mTx : MonitoredTx) (env : ReviewEnv) (gp bf tc : Int),
      env.suggestedGasPrice = Except.ok gp →
      (mTx.blobSidecar = true → env.headerBlobFeeCap = Except.ok bf) →
      (mTx.blobSidecar = true → env.suggestGasTipCap = Except.ok tc) →
      reviewEstimate mTx env = Except.error () →
      reviewMonitoredTx mTx env = Except.error ()) := by
  refine ⟨?_, ?_, ?_, ?_⟩
  · intro cfg store p env sender now n gp hsc hfn hgp hest hforced hfresh
    constructor
    · simp [clientAdd, hsc, hfn, hgp, hest, hforced, Bind.bind, Except.bind,
        memAdd, hfresh, Except.isOk, Except.toBool]
    · intro res hres
      simp [clientAdd, hsc, hfn, hgp, hest, hforced, Bind.bind, Except.bind,
        memAdd, hfresh] at hres
      subst hres
      rfl
  · intro cfg store p env sender now n gp hsc hfn hgp hest hforced
    simp [clientAdd, hsc, hfn, hgp, hest, hforced, Bind.bind, Except.bind]
  · intro cfg store p env sender now n gp bf tc hsc hfn hgp hbf htc hest
    simp [clientAdd, hsc, hfn, hgp, hbf, htc, hest, Bind.bind, Except.bind]
  · intro mTx env gp bf tc hgp hbf htc hest
    unfold reviewEstimate at hest
    by_cases hblob : mTx.blobSidecar
    · simp only [hblob, if_true] at hest
      simp [reviewMonitoredTx, hgp, hblob, hbf hblob, htc hblob, hest,
        Bind.bind, Except.bind]
    · simp only [hblob, Bool.false_eq_true, if_false] at hest
      simp [reviewMonitoredTx, hgp, hblob, hest, Bind.bind, Except.bind]

/-- Add environment with a failing plain estimation, for the C4 witness. -/
def envC4n : AddEnv := { envC4 with estimateGas := Except.error () }

/-- Non-blob variant of the C4 parameters. -/
def pPlainC4 : AddParams := { pBlobC4 with sidecar := false }

/-- Witness for the amended C4 at concrete inputs. -/
theorem forcedGas_only_nonblob_add_witness :
    ((clientAdd cfgC4 [] pPlainC4 envC4n 0 0).isOk = true ∧
      (∀ res, clientAdd cfgC4 [] pPlainC4 envC4n 0 0 = Except.ok res →
        res.1.gas = cfgC4.forcedGas)) ∧
    clientAdd { forcedGas := 0 } [] pPlainC4 envC4n 0 0 = Except.error () ∧
    clientAdd cfgC4 [] pBlobC4 envC4 0 0 = Except.error () ∧
    reviewMonitoredTx { txC3 with blobSidecar := true }
      { envC3 with estimateGasBlobTx := Except.error () } = Except.error () :=
  ⟨forcedGas_only_nonblob_add.1 cfgC4 [] pPlainC4 envC4n 0 0 1 1
      rfl rfl rfl rfl (by decide) rfl,
    forcedGas_only_nonblob_add.2.1 { forcedGas := 0 } [] pPlainC4 envC4n 0 0 1 1
      rfl rfl rfl rfl rfl,
    forcedGas_only_nonblob_add.2.2.1 cfgC4 [] pBlobC4 envC4 0 0 1 1 1 1
      rfl rfl rfl rfl rfl rfl,
    forcedGas_only_nonblob_add.2.2.2 { txC3 with blobSidecar := true }
      { envC3 with estimateGasBlobTx := Except.error () } 1 0 0
      rfl (fun _ => rfl) (fun _ => rfl) rfl⟩

/-- A sent intent of the single managed sender, nonce 5 (C5 counterexample). -/
def txS1 : MonitoredTx :=
  { defaultTx with
    id := 21, status := MonitoredTxStatus.sent, nonce := 5 }

/-- A second sent intent of the same sender, nonce 6 (C5 counterexample). -/
def txS2 : MonitoredTx :=
  { defaultTx with
    id := 22, status := MonitoredTxStatus.sent, nonce := 6 }

/-- Tick environment with pending nonce 7 for the C5 counterexample. -/
def envP7 : AddEnv :=
  { pendingNonce := Except.ok 7, suggestedGasPrice := Except.ok 1,
    headerBlobFeeCap := Except.ok 1, suggestGasTipCap := Except.ok 1,
    estimateGas := Except.ok 21000, estimateGasBlobTx := Except.ok 21000,
    txHash := 0 }

/-- Counterexample to C5: a tick starting with pending nonce 7 and two
refresh-eligible sent intents writes nonce 7 to both of them — the second
refresh reruns getTxNonce, which sees no created-status rows and returns the
pending nonce again — instead of the claimed 7 and 8. -/
theorem nonce_refresh_duplicates_nonce :
    reviewMonitoredTxNonce txS1 [txS1, txS2] envP7
      = Except.ok { txS1 with nonce := 7 } ∧
    reviewMonitoredTxNonce txS2
        (memUpdate [txS1, txS2] { txS1 with nonce := 7 } 0).2 envP7
      = Except.ok { txS2 with nonce := 7 } ∧
    (7 : Nat) ≠ 8 :=
  ⟨rfl, rfl, by decide⟩

/-- The environment of one Add in the amended C5 law: pending nonce P,
benign fee lookups, a fixed successful estimate, and a caller-chosen fresh
transaction hash. -/
def addEnvAt (P hash : Nat) : AddEnv :=
  { pendingNonce := Except.ok P, suggestedGasPrice := Except.ok 1,
    headerBlobFeeCap := Except.ok 1, suggestGasTipCap := Except.ok 1,
    estimateGas := Except.ok 21000, estimateGasBlobTx := Except.ok 21000,
    txHash := hash }

/-- Plain Add parameters that let the engine choose the nonce. -/
def plainAddParams : AddParams :=
  { toAddr := some 1, forcedNonce := none, value := 1, data := [],
    gasOffset := 0, sidecar := false }

/-- K successive Client.Add calls, one per listed transaction hash,
collecting the nonce each Add assigned. -/
def runAdds (cfg : EngineConfig) (P sender now : Nat) :
    List Nat → List MonitoredTx → Except Unit (List Nat × List MonitoredTx)
  | [], store => Except.ok ([], store)
  | h :: hs, store => do
    let (mTx, store1) ← clientAdd cfg store plainAddParams (addEnvAt P h) sender now
    let (nonces, store2) ← runAdds cfg P sender now hs store1
    Except.ok (mTx.nonce :: nonces, store2)

/-- Invariant threaded through the successive Adds: after j Adds the
created-status rows are empty (j = 0) or their max-nonce fold answers
P + j − 1. -/
def nonceInv (P j : Nat) (store : List MonitoredTx) : Prop :=
  (j = 0 ∧ createdOf store = []) ∨
  (1 ≤ j ∧ createdOf store ≠ [] ∧ maxNonceFold (createdOf store) + 1 = P + j)

/-- Under the invariant, getTxNonce answers exactly P + j. -/
theorem getTxNonce_of_inv (P j h : Nat) (store : List MonitoredTx)
    (hinv : nonceInv P j store) :
    getTxNonce store (addEnvAt P h) = Except.ok (P + j) := by
  rcases hinv with ⟨hj, hemp⟩ | ⟨hj, hne, hfold⟩
  · subst hj
    simp [getTxNonce, hemp, addEnvAt]
  · have hlen : 0 < (createdOf store).length := List.length_pos.mpr hne
    simp [getTxNonce, hlen, hfold]

/-- Appending a freshly created row with nonce P + j advances the invariant. -/
theorem nonceInv_step (P j : Nat) (store : List MonitoredTx) (t : MonitoredTx)
    (hinv : nonceInv P j store)
    (hst : t.status = MonitoredTxStatus.created) (hn : t.nonce = P + j) :
    nonceInv P (j + 1) (store ++ [t]) := by
  have hcreated : createdOf (store ++ [t]) = createdOf store ++ [t] := by
    simp [createdOf, List.filter_append, hst]
  have hfoldapp :
      maxNonceFold (createdOf store ++ [t])
        = if t.nonce > maxNonceFold (createdOf store) then t.nonce
          else maxNonceFold (createdOf store) := by
    simp [maxNonceFold, List.foldl_append]
  refine Or.inr ⟨Nat.le_add_left 1 j, ?_, ?_⟩
  · simp [hcreated]
  · rw [hcreated, hfoldapp, hn]
    rcases hinv with ⟨hj, hemp⟩ | ⟨hj, hne, hfold⟩
    · subst hj
      have hz : maxNonceFold (createdOf store) = 0 := by
        simp [hemp, maxNonceFold]
      rw [hz]
      split <;> omega
    · split <;> omega

/-- The intent record assembled by one Add of the amended-C5 run. -/
def freshCreatedTx (h sender now nonce : Nat) : MonitoredTx :=
  { id := h, sender := sender, toAddr := some 1, nonce := nonce, value := 1,
    data := [], gas := 21000, gasOffset := 0, gasPrice := 1,
    blobSidecar := false, blobGas := 0, blobGasPrice := 0, gasTipCap := 0,
    status := MonitoredTxStatus.created, blockNumber := none, history := [],
    createdAt := now, updatedAt := 0, estimateGas := false }

/-- The inductive engine of the amended C5: from any store satisfying the
invariant after j Adds, running the remaining Adds with fresh pairwise
distinct hashes assigns the consecutive nonces P + j, P + j + 1, …. -/
theorem runAdds_ok (cfg : EngineConfig) (P sender now : Nat) :
    ∀ (hashes : List Nat) (store : List MonitoredTx) (j : Nat),
    hashes.Nodup → (∀ h ∈ hashes, ∀ t ∈ store, t.id ≠ h) →
    nonceInv P j store →
    ∃ store2, runAdds cfg P sender now hashes store
      = Except.ok (List.range' (P + j) hashes.length, store2) := by
  intro hashes
  induction hashes with
  | nil =>
    intro store j _ _ _
    exact ⟨store, rfl⟩
  | cons h hs ih =>
    intro store j hnodup hfresh hinv
    have hnonce := getTxNonce_of_inv P j h store hinv
    have h1 : (addEnvAt P h).suggestedGasPrice = Except.ok 1 := rfl
    have h2 : (addEnvAt P h).estimateGas = Except.ok 21000 := rfl
    have h3 : (addEnvAt P h).txHash = h := rfl
    have hanyb : store.any (fun t => t.id == h) = false := by
      refine List.any_eq_false.mpr ?_
      intro t ht
      simpa using hfresh h (by simp) t ht
    have hex : ¬ ∃ x ∈ store, x.id = h := by
      rintro ⟨x, hx, hxe⟩
      exact hfresh h (by simp) x hx hxe
    have hadd :
        clientAdd cfg store plainAddParams (addEnvAt P h) sender now
          = Except.ok (freshCreatedTx h sender now (P + j),
              store ++ [freshCreatedTx h sender now (P + j)]) := by
      simp [clientAdd, plainAddParams, hnonce, h1, h2, h3, memAdd, hanyb,
        hex, freshCreatedTx, Bind.bind, Except.bind]
    have hstep :=
      nonceInv_step P j store (freshCreatedTx h sender now (P + j)) hinv rfl rfl
    have hfresh2 : ∀ h2 ∈ hs,
        ∀ t ∈ store ++ [freshCreatedTx h sender now (P + j)], t.id ≠ h2 := by
      intro h2 hh2 t ht
      rcases List.mem_append.mp ht with htl | htr
      · exact hfresh h2 (by simp [hh2]) t htl
      · have hth : t.id = h := by
          simp at htr
          simp [htr, freshCreatedTx]
        rw [hth]
        intro hcontra
        subst hcontra
        exact (List.nodup_cons.mp hnodup).1 hh2
    rcases ih _ (j + 1) (List.nodup_cons.mp hnodup).2 hfresh2 hstep with
      ⟨store2, hrest⟩
    refine ⟨store2, ?_⟩
    simp [runAdds, hadd, hrest, Bind.bind, Except.bind, List.range'_succ,
      Nat.add_assoc]
    rfl

/-- C5 amended: the gap-free allocation P, P+1, …, P+K−1 is realised at Add
time, not by the per-tick refresh — starting from a store with no
created-status intents and pending nonce P, K successive Adds with fresh
distinct fingerprints assign exactly the nonces P, P+1, …, P+K−1 in call
order (each Add consults getTxNonce: max created nonce + 1, or P when no
created intent exists); the per-tick refresh of several eligible intents
instead writes the same getTxNonce value to each of them. -/
theorem add_sequence_nonces_gap_free (cfg : EngineConfig)
    (P sender now : Nat) (store : List MonitoredTx) (hashes : List Nat)
    (hnodup : hashes.Nodup)
    (hfresh : ∀ h ∈ hashes, ∀ t ∈ store, t.id ≠ h)
    (hnocreated : ∀ t ∈ store, t.status ≠ MonitoredTxStatus.created) :
    ∃ store2, runAdds cfg P sender now hashes store
      = Except.ok (List.range' P hashes.length, store2) := by
  have hinv : nonceInv P 0 store := by
    refine Or.inl ⟨rfl, ?_⟩
    refine List.filter_eq_nil_iff.mpr ?_
    intro t ht
    simpa using hnocreated t ht
  simpa using runAdds_ok cfg P sender now hashes store 0 hnodup hfresh hinv

/-- Witness for the amended C5: three Adds from an empty store with pending
nonce 7 assign nonces 7, 8, 9. -/
theorem add_sequence_nonces_gap_free_witness :
    ∃ store2, runAdds { forcedGas := 0 } 7 0 0 [101, 102, 103] []
      = Except.ok ([7, 8, 9], store2) :=
  add_sequence_nonces_gap_free { forcedGas := 0 } 7 0 0 [] [101, 102, 103]
    (by decide) (by simp) (by simp)

/-- The filter loop of MemStorage.GetByStatus (memstorage.go:109-119): rows
are visited in map-iteration order; with a nonempty status list a row is
appended once per matching entry of the list, with an empty list every row
is appended. -/
def getByStatusFilter : List MonitoredTx → List MonitoredTxStatus → List MonitoredTx
  | [], _ => []
  | t :: ts, statuses =>
    (if statuses.length > 0 then
      statuses.filterMap (fun s => if t.status = s then some t else none)
    else [t]) ++ getByStatusFilter ts statuses

/-- One round of the in-place double loop of memstorage.go:123-129, holding
the element of slot i: compare it against every later slot, swapping whenever
the held element was created strictly later (`CreatedAt.After`); the result
is the element finally left in slot i together with the later slots. -/
def selectPass (x : MonitoredTx) : List MonitoredTx → MonitoredTx × List MonitoredTx
  | [] => (x, [])
  | y :: ys =>
    if x.createdAt > y.createdAt then
      ((selectPass y ys).1, x :: (selectPass y ys).2)
    else
      ((selectPass x ys).1, y :: (selectPass x ys).2)

/-- selectPass keeps the number of later slots. -/
theorem selectPass_snd_length (x : MonitoredTx) (l : List MonitoredTx) :
    (selectPass x l).2.length = l.length := by
  induction l generalizing x with
  | nil => rfl
  | cons y ys ih =>
    unfold selectPass
    split <;> simp [ih]

/-- The outer loop of memstorage.go:123-129: after the inner round fixes
slot i, continue with the later slots. -/
def selSort : List MonitoredTx → List MonitoredTx
  | [] => []
  | x :: xs =>
    (selectPass x xs).1 :: selSort (selectPass x xs).2
termination_by l => l.length
decreasing_by
  rw [selectPass_snd_length]
  simp

/-- MemStorage.GetByStatus (memstorage.go:105-132): filter by the statuses,
then order by CreatedAt with the double swap loop. -/
def memGetByStatus (store : List MonitoredTx)
    (statuses : List MonitoredTxStatus) : List MonitoredTx :=
  selSort (getByStatusFilter store statuses)

/-- The element selectPass leaves in slot i plus the later slots are a
permutation of the inputs. -/
theorem selectPass_perm (l : List MonitoredTx) :
    ∀ x : MonitoredTx,
      List.Perm ((selectPass x l).1 :: (selectPass x l).2) (x :: l) := by
  induction l with
  | nil =>
    intro x
    exact List.Perm.refl _
  | cons y ys ih =>
    intro x
    unfold selectPass
    split
    · exact List.Perm.trans
        (List.Perm.swap x (selectPass y ys).1 (selectPass y ys).2)
        (List.Perm.cons x (ih y))
    · exact List.Perm.trans
        (List.Perm.trans
          (List.Perm.swap y (selectPass x ys).1 (selectPass x ys).2)
          (List.Perm.cons y (ih x)))
        (List.Perm.swap x y ys)

/-- The element selectPass leaves in slot i was created no later than any
input element. -/
theorem selectPass_min (l : List MonitoredTx) :
    ∀ x : MonitoredTx, ∀ z ∈ x :: l,
      (selectPass x l).1.createdAt ≤ z.createdAt := by
  induction l with
  | nil =>
    intro x z hz
    have hzx : z = x := by simpa using hz
    subst hzx
    exact le_refl _
  | cons y ys ih =>
    intro x z hz
    unfold selectPass
    split
    · rename_i hgt
      rcases List.mem_cons.mp hz with hz1 | hz2
      · subst hz1
        exact le_trans (ih y y (by simp)) (le_of_lt hgt)
      · exact ih y z hz2
    · rename_i hle
      rcases List.mem_cons.mp hz with hz1 | hz2
      · subst hz1
        exact ih z z (by simp)
      · rcases List.mem_cons.mp hz2 with hz3 | hz4
        · subst hz3
          exact le_trans (ih x x (by simp)) (Nat.le_of_not_lt hle)
        · exact ih x z (by simp [hz4])

/-- The double swap loop permutes its input (fuel-style induction on the
length). -/
theorem selSort_perm_fuel (n : Nat) :
    ∀ l : List MonitoredTx, l.length ≤ n → List.Perm (selSort l) l := by
  induction n with
  | zero =>
    intro l hl
    have : l = [] := List.length_eq_zero.mp (Nat.le_zero.mp hl)
    subst this
    simp [selSort]
  | succ n ih =>
    intro l hl
    cases l with
    | nil => simp [selSort]
    | cons x xs =>
      rw [selSort]
      have hlen : (selectPass x xs).2.length ≤ n := by
        rw [selectPass_snd_length]
        simpa using Nat.le_of_succ_le_succ hl
      exact List.Perm.trans (List.Perm.cons _ (ih _ hlen)) (selectPass_perm xs x)

/-- The double swap loop permutes its input. -/
theorem selSort_perm (l : List MonitoredTx) : List.Perm (selSort l) l :=
  selSort_perm_fuel l.length l (le_refl _)

/-- The double swap loop sorts by CreatedAt, non-decreasing (fuel-style
induction on the length). -/
theorem selSort_sorted_fuel (n : Nat) :
    ∀ l : List MonitoredTx, l.length ≤ n →
      List.Pairwise (fun a b => a.createdAt ≤ b.createdAt) (selSort l) := by
  induction n with
  | zero =>
    intro l hl
    have : l = [] := List.length_eq_zero.mp (Nat.le_zero.mp hl)
    subst this
    simp [selSort]
  | succ n ih =>
    intro l hl
    cases l with
    | nil => simp [selSort]
    | cons x xs =>
      rw [selSort]
      have hlen : (selectPass x xs).2.length ≤ n := by
        rw [selectPass_snd_length]
        simpa using Nat.le_of_succ_le_succ hl
      refine List.Pairwise.cons ?_ (ih _ hlen)
      intro z hz
      have hz2 : z ∈ (selectPass x xs).2 :=
        (selSort_perm _).mem_iff.mp hz
      have hz3 : z ∈ x :: xs :=
        (selectPass_perm xs x).mem_iff.mp (List.mem_cons_of_mem _ hz2)
      exact selectPass_min xs x z hz3

/-- The double swap loop sorts by CreatedAt (non-decreasing). -/
theorem selSort_sorted (l : List MonitoredTx) :
    List.Pairwise (fun a b => a.createdAt ≤ b.createdAt) (selSort l) :=
  selSort_sorted_fuel l.length l (le_refl _)

/-- With a status absent from the remaining list, the inner append loop
contributes nothing. -/
theorem statusRow_notmem (t : MonitoredTx) (ss : List MonitoredTxStatus)
    (h : t.status ∉ ss) :
    ss.filterMap (fun s => if t.status = s then some t else none) = [] := by
  induction ss with
  | nil => rfl
  | cons s ss2 ih =>
    have hne : t.status ≠ s := by
      intro he
      exact h (by simp [he])
    simp [List.filterMap_cons, hne, ih (fun hmem => h (by simp [hmem]))]

/-- With pairwise distinct statuses the inner append loop appends a matching
row exactly once. -/
theorem statusRow_nodup (t : MonitoredTx) (ss : List MonitoredTxStatus)
    (h : ss.Nodup) :
    ss.filterMap (fun s => if t.status = s then some t else none)
      = if t.status ∈ ss then [t] else [] := by
  induction ss with
  | nil => rfl
  | cons s ss2 ih =>
    by_cases he : t.status = s
    · subst he
      simp [List.filterMap_cons,
        statusRow_notmem t ss2 (List.nodup_cons.mp h).1]
    · have h2 := ih (List.nodup_cons.mp h).2
      by_cases hm2 : t.status ∈ ss2
      · simp [List.filterMap_cons, he, h2, hm2]
      · simp [List.filterMap_cons, he, h2, hm2]

/-- For duplicate-free status lists the row loop is a plain filter. -/
theorem getByStatusFilter_eq (store : List MonitoredTx)
    (statuses : List MonitoredTxStatus) (hnodup : statuses.Nodup) :
    getByStatusFilter store statuses
      = store.filter (fun t => decide (statuses = [] ∨ t.status ∈ statuses)) := by
  induction store with
  | nil => rfl
  | cons t ts ih =>
    cases statuses with
    | nil => simp [getByStatusFilter, ih, List.filter_cons]
    | cons s ss =>
      rw [getByStatusFilter, ih]
      rw [statusRow_nodup t (s :: ss) hnodup]
      by_cases hmem : t.status ∈ s :: ss
      · have hor := List.mem_cons.mp hmem
        simp [List.filter_cons, hmem, hor]
      · have hor : ¬ (t.status = s ∨ t.status ∈ ss) := by
          simpa [List.mem_cons] using hmem
        simp [List.filter_cons, hmem, hor]

/-- A sent intent with id 0 created at the earlier time 3 (C6
counterexample). -/
def txT0 : MonitoredTx :=
  { defaultTx with
    id := 0, status := MonitoredTxStatus.sent, createdAt := 3 }

/-- A sent intent with id 1 created at time 5 (C6 counterexample). -/
def txT1 : MonitoredTx :=
  { defaultTx with
    id := 1, status := MonitoredTxStatus.sent, createdAt := 5 }

/-- A sent intent with id 2, created at the same time 5 (C6 counterexample). -/
def txT2 : MonitoredTx :=
  { defaultTx with
    id := 2, status := MonitoredTxStatus.sent, createdAt := 5 }

/-- Counterexample to C6: the double swap loop has no tie-break by id and is
not stable.  On iteration order [id 2 @5, id 1 @5, id 0 @3] the held id-2
row is swapped past its equal-CreatedAt sibling, so the equal pair comes out
[id 1, id 2] — inverted against iteration order; on iteration order
[id 1 @5, id 2 @5, id 0 @3] of the same rows the equal pair comes out
[id 2, id 1] — not id order.  The two runs order the same equal-CreatedAt
pair both ways, so neither an id tie-break nor stability holds. -/
theorem getByStatus_no_id_tiebreak :
    memGetByStatus [txT2, txT1, txT0] [] = [txT0, txT1, txT2] ∧
    memGetByStatus [txT1, txT2, txT0] [] = [txT0, txT2, txT1] ∧
    txT1.id < txT2.id ∧ txT1.createdAt = txT2.createdAt := by
  refine ⟨?_, ?_, by decide, rfl⟩ <;>
    simp [memGetByStatus, getByStatusFilter, selSort, selectPass,
      txT0, txT1, txT2, defaultTx]

/-- C6 amended: for every store state and every duplicate-free (possibly
empty) list of statuses, get_by_status returns a permutation of exactly the
stored intents whose status is in the list (all of them when the list is
empty), ordered by created_at non-decreasing; there is no tie-break by id,
and the swap loop is not stable: rows sharing a created_at can come out in
either relative order, depending on the other rows and on the map iteration
order (and a status list with duplicate entries duplicates matching rows). -/
theorem getByStatus_sorted_perm (store : List MonitoredTx)
    (statuses : List MonitoredTxStatus) (hnodup : statuses.Nodup) :
    List.Perm (memGetByStatus store statuses)
      (store.filter (fun t => decide (statuses = [] ∨ t.status ∈ statuses))) ∧
    List.Pairwise (fun a b => a.createdAt ≤ b.createdAt)
      (memGetByStatus store statuses) := by
  constructor
  · rw [memGetByStatus, ← getByStatusFilter_eq store statuses hnodup]
    exact selSort_perm _
  · exact selSort_sorted _

/-- Witness for the amended C6 at a concrete store and status list. -/
theorem getByStatus_sorted_perm_witness :
    List.Perm (memGetByStatus [txT2, txT1, defaultTx] [MonitoredTxStatus.sent])
      (List.filter
        (fun t => decide ([MonitoredTxStatus.sent] = [] ∨
          t.status ∈ [MonitoredTxStatus.sent]))
        [txT2, txT1, defaultTx]) ∧
    List.Pairwise (fun a b => a.createdAt ≤ b.createdAt)
      (memGetByStatus [txT2, txT1, defaultTx] [MonitoredTxStatus.sent]) :=
  getByStatus_sorted_perm [txT2, txT1, defaultTx] [MonitoredTxStatus.sent]
    (by simp)

/-- params.BlobTxBytesPerFieldElement. -/
def blobTxBytesPerFieldElement : Nat := 32

/-- params.BlobTxFieldElementsPerBlob. -/
def blobTxFieldElementsPerBlob : Nat := 4096

/-- Go `copy(blob[pos:], chunk)` on a function-represented byte buffer: the
chunk bytes land at positions pos … pos + len(chunk) − 1, everything else is
unchanged (the destination slice reaches the end of the blob, so no clipping
occurs for the offsets EncodeBlobData uses). -/
def copyBytes (blob : Nat → Nat) (pos : Nat) (chunk : List Nat) : Nat → Nat :=
  fun j =>
    if pos ≤ j ∧ j < pos + chunk.length then chunk.getD (j - pos) 0 else blob j

/-- The chunk loop of Client.EncodeBlobData (ethtxmanager.go:1038-1049):
consume 31 input bytes per field element, stop at 4096 elements, and copy
each chunk to offset fieldIndex·32 + 1 so the leading byte of every element
stays zero. -/
def encodeChunks : (Nat → Nat) → List Nat → Nat → (Nat → Nat)
  | blob, [], _ => blob
  | blob, b :: bs, fieldIndex =>
    if fieldIndex = blobTxFieldElementsPerBlob then blob
    else
      encodeChunks
        (copyBytes blob (fieldIndex * blobTxBytesPerFieldElement + 1)
          ((b :: bs).take 31))
        ((b :: bs).drop 31) (fieldIndex + 1)
termination_by _ rest _ => rest.length
decreasing_by
  simp
  omega

/-- Client.EncodeBlobData (ethtxmanager.go:1027-1051): inputs longer than
4096 × 31 bytes are rejected before any write; otherwise the zero blob is
filled by the chunk loop. -/
def encodeBlobData (data : List Nat) : Except Unit (Nat → Nat) :=
  if data.length > blobTxFieldElementsPerBlob * (blobTxBytesPerFieldElement - 1) then
    Except.error ()
  else
    Except.ok (encodeChunks (fun _ => 0) data 0)

/-- getD commutes with take below the cut. -/
theorem getD_take (l : List Nat) (n i : Nat) (h : i < n) :
    (l.take n).getD i 0 = l.getD i 0 := by
  simp [List.getD_eq_getElem?_getD, List.getElem?_take, h]

/-- getD commutes with drop by shifting the index. -/
theorem getD_drop (l : List Nat) (n i : Nat) :
    (l.drop n).getD i 0 = l.getD (n + i) 0 := by
  simp [List.getD_eq_getElem?_getD, List.getElem?_drop]

/-- Positions strictly before the write window of the remaining chunks are
left untouched by the chunk loop. -/
theorem encodeChunks_untouched_fuel (n : Nat) :
    ∀ rest : List Nat, rest.length ≤ n → ∀ (f : Nat) (blob : Nat → Nat) (j : Nat),
      j < f * 32 + 1 → encodeChunks blob rest f j = blob j := by
  induction n with
  | zero =>
    intro rest hn f blob j hj
    have hnil : rest = [] := List.length_eq_zero.mp (Nat.le_zero.mp hn)
    subst hnil
    simp [encodeChunks]
  | succ n ih =>
    intro rest hn f blob j hj
    cases rest with
    | nil => simp [encodeChunks]
    | cons b bs =>
      rw [encodeChunks]
      split
      · rfl
      · have hlen : ((b :: bs).drop 31).length ≤ n := by
          simp only [List.length_drop, List.length_cons] at hn ⊢
          omega
        rw [ih _ hlen (f + 1) _ j (by omega)]
        simp only [copyBytes, blobTxBytesPerFieldElement]
        rw [if_neg]
        intro hcontra
        omega

/-- Pointwise value of the chunk loop: starting at field index f with the
tail of the data, a position j at or after element f reads the packed input
byte when the element offset is nonzero and in range, and the prior buffer
byte otherwise. -/
theorem encodeChunks_eval_fuel (n : Nat) :
    ∀ rest : List Nat, rest.length ≤ n → ∀ (f : Nat) (blob : Nat → Nat) (j : Nat),
      rest.length ≤ (blobTxFieldElementsPerBlob - f) * 31 → f * 32 ≤ j →
      encodeChunks blob rest f j =
        if j % 32 ≠ 0 ∧ (j / 32 - f) * 31 + (j % 32 - 1) < rest.length then
          rest.getD ((j / 32 - f) * 31 + (j % 32 - 1)) 0
        else blob j := by
  induction n with
  | zero =>
    intro rest hn f blob j hcap hjf
    have hnil : rest = [] := List.length_eq_zero.mp (Nat.le_zero.mp hn)
    subst hnil
    simp [encodeChunks]
  | succ n ih =>
    intro rest hn f blob j hcap hjf
    cases rest with
    | nil => simp [encodeChunks]
    | cons b bs =>
      simp only [blobTxFieldElementsPerBlob] at hcap
      have hq := Nat.div_add_mod j 32
      have hr : j % 32 < 32 := Nat.mod_lt _ (by omega)
      have hL : (b :: bs).length = bs.length + 1 := by simp
      have hflt : f < 4096 := by omega
      rw [encodeChunks]
      rw [if_neg (by simp only [blobTxFieldElementsPerBlob]; omega)]
      simp only [blobTxBytesPerFieldElement]
      have htake : ((b :: bs).take 31).length = min 31 (b :: bs).length :=
        List.length_take 31 (b :: bs)
      have hdrop : ((b :: bs).drop 31).length = (b :: bs).length - 31 :=
        List.length_drop 31 (b :: bs)
      by_cases hcase : j < (f + 1) * 32
      · have hdiv : j / 32 = f := by omega
        rw [encodeChunks_untouched_fuel (((b :: bs).drop 31).length)
          _ (le_refl _) (f + 1) _ j (by omega)]
        simp only [copyBytes]
        have hidx : (j / 32 - f) * 31 + (j % 32 - 1) = j % 32 - 1 := by
          rw [hdiv]
          simp
        rw [hidx]
        split_ifs with h1 h2 h2
        · have hsub : j - (f * 32 + 1) = j % 32 - 1 := by omega
          rw [hsub]
          exact getD_take _ _ _ (by omega)
        · exfalso
          rw [htake] at h1
          omega
        · exfalso
          rw [htake] at h1
          omega
        · rfl
      · have hfq : f + 1 ≤ j / 32 := by omega
        have hlen : ((b :: bs).drop 31).length ≤ n := by
          rw [hdrop]
          omega
        have hcap2 : ((b :: bs).drop 31).length
            ≤ (blobTxFieldElementsPerBlob - (f + 1)) * 31 := by
          simp only [blobTxFieldElementsPerBlob]
          rw [hdrop]
          omega
        rw [ih _ hlen (f + 1) _ j hcap2 (by omega)]
        have hidx : (j / 32 - f) * 31 + (j % 32 - 1)
            = 31 + ((j / 32 - (f + 1)) * 31 + (j % 32 - 1)) := by
          omega
        simp only [copyBytes]
        split_ifs with h1 h2 h2 h3 h3
        · rw [getD_drop, ← hidx]
        · exfalso
          rw [hdrop] at h1
          omega
        · exfalso
          rw [htake] at h2
          omega
        · exfalso
          rw [htake] at h2
          omega
        · exfalso
          rw [hdrop] at h1
          omega
        · rfl

/-- C9: EncodeBlobData(b) errors exactly when len(b) > 4096 × 31 — rejecting
before any write — and otherwise returns the blob in which byte j of element
e (position 32e + j) is zero for j = 0 and carries input byte 31e + (j − 1)
when that index is in range, zero otherwise: the input is packed 31 bytes per
32-byte element with the leading byte of every element left zero. -/
theorem encodeBlobData_spec (data : List Nat) :
    (data.length > 4096 * 31 → encodeBlobData data = Except.error ()) ∧
    (data.length ≤ 4096 * 31 →
      ∃ blob, encodeBlobData data = Except.ok blob ∧
        ∀ j, j < 4096 * 32 →
          blob j =
            if j % 32 = 0 then 0
            else if (j / 32) * 31 + (j % 32 - 1) < data.length then
              data.getD ((j / 32) * 31 + (j % 32 - 1)) 0
            else 0) := by
  constructor
  · intro h
    simp only [encodeBlobData, blobTxFieldElementsPerBlob,
      blobTxBytesPerFieldElement]
    rw [if_pos]
    omega
  · intro h
    refine ⟨encodeChunks (fun _ => 0) data 0, ?_, ?_⟩
    · simp only [encodeBlobData, blobTxFieldElementsPerBlob,
        blobTxBytesPerFieldElement]
      rw [if_neg]
      omega
    · intro j hj
      rw [encodeChunks_eval_fuel data.length data (le_refl _) 0 _ j
        (by simpa [blobTxFieldElementsPerBlob] using h) (by omega)]
      by_cases hz : j % 32 = 0
      · simp [hz]
      · by_cases hin : (j / 32 - 0) * 31 + (j % 32 - 1) < data.length
        · rw [if_pos ⟨hz, hin⟩, if_neg hz, if_pos (by simpa using hin)]
          simp
        · rw [if_neg (by intro hc; exact hin hc.2), if_neg hz,
            if_neg (by simpa using hin)]

/-- Witness for C9: a two-byte input packs at positions 1 and 2 of the first
element, and an input of 4096 × 31 + 1 bytes is rejected. -/
theorem encodeBlobData_spec_witness :
    (∃ blob, encodeBlobData [7, 8] = Except.ok blob ∧
      ∀ j, j < 4096 * 32 →
        blob j =
          if j % 32 = 0 then 0
          else if (j / 32) * 31 + (j % 32 - 1) < ([7, 8] : List Nat).length then
            ([7, 8] : List Nat).getD ((j / 32) * 31 + (j % 32 - 1)) 0
          else 0) ∧
    encodeBlobData (List.replicate (4096 * 31 + 1) 0) = Except.error () :=
  ⟨(encodeBlobData_spec [7, 8]).2 (by decide),
    (encodeBlobData_spec (List.replicate (4096 * 31 + 1) 0)).1
      (by rw [List.length_replicate]; omega)⟩

/-- Outcome of etherman.CheckTxWasMined for one history hash. -/
inductive CheckMinedOutcome where
  | errored
  | notMined
  | minedWith (r : ReceiptView)
deriving Repr

/-- Accumulators of the history-scan loop of monitorTx
(ethtxmanager.go:586-622). -/
structure HistoryScan where
  confirmed : Bool
  hasFailedReceipts : Bool
  allHistoryTxsWereMined : Bool
  lastReceipt : Option ReceiptView
deriving Repr

/-- RPC, signing and storage outcomes consumed by one monitorTx call.  The
nonce produced by getTxNonce inside reviewMonitoredTxNonce is an oracle
value here, and a storage Update is modelled as always succeeding — a failed
Update aborts the run, so its writes are a prefix of the modelled ones and
inherit any property of the full write sequence. -/
structure MonitorEnv where
  checkMined : Nat → CheckMinedOutcome
  txNonce : Except Unit Nat
  review : ReviewEnv
  signedHash : Except Unit Nat
  getTxNotFound : Bool
  sendOk : Bool
  waitMined : Except Unit Bool
  receiptPoll : Option ReceiptView
  continueGetTxOk : Bool
  continueRevert : RevertOutcome

/-- The history loop of monitorTx (ethtxmanager.go:596-622): a check error
skips the hash, a not-yet-mined hash clears allHistoryTxsWereMined, a mined
hash records its receipt and either breaks with confirmed on success or sets
hasFailedReceipts. -/
def scanHistoryAux (env : MonitorEnv) :
    Bool → Bool → Bool → Option ReceiptView → List Nat → HistoryScan
  | confirmed, hasFailed, allMined, last, [] =>
    ⟨confirmed, hasFailed, allMined, last⟩
  | confirmed, hasFailed, allMined, last, h :: hs =>
    match env.checkMined h with
    | CheckMinedOutcome.errored =>
      scanHistoryAux env confirmed hasFailed allMined last hs
    | CheckMinedOutcome.notMined =>
      scanHistoryAux env confirmed hasFailed false last hs
    | CheckMinedOutcome.minedWith r =>
      if r.successful then ⟨true, hasFailed, allMined, some r⟩
      else scanHistoryAux env false true allMined (some r) hs

/-- The nonce-review step of monitorTx (ethtxmanager.go:635-647): when the
scan saw only mined-but-failed attempts, fetch a fresh nonce (an error
aborts without a write), keep it only when strictly greater, and persist. -/
def nonceStep (mTx : MonitoredTx) (env : MonitorEnv) (scan : HistoryScan) :
    Except Unit (MonitoredTx × List MonitoredTx) :=
  if !scan.confirmed && scan.hasFailedReceipts && scan.allHistoryTxsWereMined then
    match env.txNonce with
    | Except.error e => Except.error e
    | Except.ok nonce =>
      let mTx1 := if nonce > mTx.nonce then { mTx with nonce := nonce } else mTx
      Except.ok (mTx1, [mTx1])
  else Except.ok (mTx, [])

/-- The fee-review step of monitorTx (ethtxmanager.go:651-663): only a sent
intent is reviewed; a review error aborts, a successful review is
persisted. -/
def reviewStep (mTx : MonitoredTx) (env : MonitorEnv) :
    Except Unit (MonitoredTx × List MonitoredTx) :=
  if mTx.status = MonitoredTxStatus.sent then
    match reviewMonitoredTx mTx env.review with
    | Except.error e => Except.error e
    | Except.ok mTx1 => Except.ok (mTx1, [mTx1])
  else Except.ok (mTx, [])

/-- The receipt verdict of monitorTx (ethtxmanager.go:760-775): a successful
receipt persists mined with the receipt block, a failed receipt either keeps
monitoring (no write) or persists failed with the receipt block. -/
def finalStep (mTx : MonitoredTx) (env : MonitorEnv) (r : ReceiptView) :
    List MonitoredTx :=
  if r.successful then
    [{ mTx with status := MonitoredTxStatus.mined, blockNumber := some r.blockNumber }]
  else if shouldContinueToMonitorThisTx ⟨r, env.continueGetTxOk, env.continueRevert⟩ then
    []
  else
    [{ mTx with status := MonitoredTxStatus.failed, blockNumber := some r.blockNumber }]

/-- The not-yet-confirmed path of monitorTx (ethtxmanager.go:650-758): review
when sent, sign, add the signed hash to the history (an already-present hash
is tolerated without a write), probe GetTx and send when not found — a send
failure aborts, and a successful send of a created intent persists sent —
then wait for mining and poll the receipt, aborting on timeout or error. -/
def sendPathWrites (mTx : MonitoredTx) (env : MonitorEnv) : List MonitoredTx :=
  match reviewStep mTx env with
  | Except.error _ => []
  | Except.ok (mTx1, w2) =>
    match env.signedHash with
    | Except.error _ => w2
    | Except.ok signedHash =>
      let hstep :=
        if signedHash ∈ mTx1.history then (mTx1, ([] : List MonitoredTx))
        else
          ({ mTx1 with history := mTx1.history ++ [signedHash] },
            [{ mTx1 with history := mTx1.history ++ [signedHash] }])
      let sendStep : Option (MonitoredTx × List MonitoredTx) :=
        if env.getTxNotFound then
          if env.sendOk then
            if hstep.1.status = MonitoredTxStatus.created then
              some ({ hstep.1 with status := MonitoredTxStatus.sent },
                [{ hstep.1 with status := MonitoredTxStatus.sent }])
            else some (hstep.1, [])
          else none
        else some (hstep.1, [])
      match sendStep with
      | none => w2 ++ hstep.2
      | some (mTx3, w4) =>
        match env.waitMined with
        | Except.error _ => w2 ++ hstep.2 ++ w4
        | Except.ok false => w2 ++ hstep.2 ++ w4
        | Except.ok true =>
          match env.receiptPoll with
          | none => w2 ++ hstep.2 ++ w4
          | some r => w2 ++ hstep.2 ++ w4 ++ finalStep mTx3 env r

/-- Client.monitorTx (ethtxmanager.go:583-783) as the ordered sequence of
storage writes of one call on one intent: scan the history, review the nonce
when needed, then either close out a confirmed intent with its successful
receipt or run the send path. -/
def monitorTxWrites (mTx : MonitoredTx) (env : MonitorEnv) : List MonitoredTx :=
  let scan := scanHistoryAux env false false true none mTx.history
  match nonceStep mTx env scan with
  | Except.error _ => []
  | Except.ok (mTx1, w1) =>
    if scan.confirmed then
      match scan.lastReceipt with
      | some r => w1 ++ finalStep mTx1 env r
      | none => w1
    else
      w1 ++ sendPathWrites mTx1 env

/-- One engine step touching an intent: the submission sweep (which fetches
created and sent intents), the mined-to-safe sweep, or the safe-to-finalized
sweep, each with its environment. -/
inductive EngineStep where
  | submission (env : MonitorEnv)
  | minedToSafe (cfg : StaircaseConfig) (senv : StaircaseEnv)
  | safeToFinalized (cfg : StaircaseConfig) (senv : StaircaseEnv)

/-- The writes one engine step performs on one intent, guarded by the status
filter the sweep fetches by (monitorTxs, waitMinedTxToBeSafe and
waitSafeTxToBeFinalized respectively). -/
def engineStepWrites (mTx : MonitoredTx) : EngineStep → List MonitoredTx
  | EngineStep.submission env =>
    if mTx.status = MonitoredTxStatus.created ∨ mTx.status = MonitoredTxStatus.sent then
      monitorTxWrites mTx env
    else []
  | EngineStep.minedToSafe cfg senv =>
    if mTx.status = MonitoredTxStatus.mined ∧
        mTx.blockNumber.getD 0 % 2 ^ 64 ≤ safeBlockThreshold cfg senv then
      [{ mTx with status := MonitoredTxStatus.safe }]
    else []
  | EngineStep.safeToFinalized cfg senv =>
    if mTx.status = MonitoredTxStatus.safe ∧
        mTx.blockNumber.getD 0 % 2 ^ 64 ≤ finalizedBlockThreshold cfg senv then
      [{ mTx with status := MonitoredTxStatus.finalized }]
    else []

/-- The writes of a whole sequence of engine steps on one intent, each step
reading the record the previous write persisted. -/
def engineRunWrites (mTx : MonitoredTx) : List EngineStep → List MonitoredTx
  | [] => []
  | s :: ss =>
    engineStepWrites mTx s ++
      engineRunWrites ((engineStepWrites mTx s).getLast?.getD mTx) ss

/-- The forward order of the status graph created → sent → {mined → safe →
finalized} | failed, reflexively and transitively closed: statusLe a b holds
exactly when b is reachable from a. -/
def statusLe : MonitoredTxStatus → MonitoredTxStatus → Bool
  | MonitoredTxStatus.created, _ => true
  | MonitoredTxStatus.sent, MonitoredTxStatus.created => false
  | MonitoredTxStatus.sent, _ => true
  | MonitoredTxStatus.mined, MonitoredTxStatus.mined => true
  | MonitoredTxStatus.mined, MonitoredTxStatus.safe => true
  | MonitoredTxStatus.mined, MonitoredTxStatus.finalized => true
  | MonitoredTxStatus.mined, _ => false
  | MonitoredTxStatus.safe, MonitoredTxStatus.safe => true
  | MonitoredTxStatus.safe, MonitoredTxStatus.finalized => true
  | MonitoredTxStatus.safe, _ => false
  | MonitoredTxStatus.finalized, MonitoredTxStatus.finalized => true
  | MonitoredTxStatus.finalized, _ => false
  | MonitoredTxStatus.failed, MonitoredTxStatus.failed => true
  | MonitoredTxStatus.failed, _ => false

/-- statusLe as a relation. -/
def statusRel (a b : MonitoredTxStatus) : Prop := statusLe a b = true

/-- A write-status list is a forward chain from the stored status. -/
def chainFrom (s : MonitoredTxStatus) (l : List MonitoredTxStatus) : Prop :=
  List.Chain' statusRel (s :: l)

/-- The last status of a write list, defaulting to the stored one. -/
def lastD (l : List MonitoredTxStatus) (s : MonitoredTxStatus) :
    MonitoredTxStatus :=
  l.getLast?.getD s

/-- statusRel is reflexive. -/
theorem statusRel_refl (s : MonitoredTxStatus) : statusRel s s := by
  cases s <;> rfl

/-- The empty write list is a forward chain. -/
theorem chainFrom_nil (s : MonitoredTxStatus) : chainFrom s [] := by
  simp [chainFrom]

/-- A related singleton write is a forward chain. -/
theorem chainFrom_single (s t : MonitoredTxStatus) (h : statusRel s t) :
    chainFrom s [t] := by
  simp [chainFrom, List.chain'_cons, h]

/-- The head of a cons is dropped by getLast? as long as the tail is
nonempty. -/
theorem getLast?_cons_eq (s : MonitoredTxStatus) (l : List MonitoredTxStatus) :
    (s :: l).getLast? = some (lastD l s) := by
  unfold lastD
  cases l with
  | nil => rfl
  | cons a as =>
    rw [List.getLast?_cons_cons]
    cases hgl : (a :: as).getLast? with
    | none =>
      exact absurd (List.getLast?_eq_none_iff.mp hgl) (by simp)
    | some t => rfl

/-- Forward chains compose along the last persisted status. -/
theorem chainFrom_append (s : MonitoredTxStatus)
    (l1 l2 : List MonitoredTxStatus)
    (h1 : chainFrom s l1) (h2 : chainFrom (lastD l1 s) l2) :
    chainFrom s (l1 ++ l2) := by
  unfold chainFrom at h1 h2 ⊢
  have hcons : s :: (l1 ++ l2) = (s :: l1) ++ l2 := by simp
  rw [hcons, List.chain'_append]
  refine ⟨h1, List.Chain'.tail h2, ?_⟩
  intro x hx y hy
  rw [getLast?_cons_eq] at hx
  have hxe : lastD l1 s = x := by simpa using hx
  subst hxe
  exact (List.chain'_cons'.mp h2).1 y hy

/-- A write list of a constant status is a forward chain ending where it
started. -/
theorem chainFrom_const (s : MonitoredTxStatus) :
    ∀ l : List MonitoredTxStatus, (∀ t ∈ l, t = s) →
      chainFrom s l ∧ lastD l s = s := by
  intro l
  induction l with
  | nil => intro _; exact ⟨chainFrom_nil s, rfl⟩
  | cons a as ih =>
    intro h
    have ha : a = s := h a (by simp)
    subst ha
    obtain ⟨hc, hl⟩ := ih (fun t ht => h t (by simp [ht]))
    constructor
    · exact List.chain'_cons.mpr ⟨statusRel_refl a, hc⟩
    · unfold lastD
      rw [getLast?_cons_eq]
      simpa [lastD] using hl

/-- The review never changes the status of the intent. -/
theorem reviewMonitoredTx_status (mTx mTx' : MonitoredTx) (env : ReviewEnv)
    (h : reviewMonitoredTx mTx env = Except.ok mTx') :
    mTx'.status = mTx.status := by
  unfold reviewMonitoredTx at h
  cases hsp : env.suggestedGasPrice with
  | error e => simp [hsp, Bind.bind, Except.bind] at h
  | ok gp =>
    simp only [hsp, Bind.bind, Except.bind] at h
    by_cases hblob : mTx.blobSidecar
    · simp only [hblob, if_true] at h
      cases hbf : env.headerBlobFeeCap with
      | error e => simp [hbf] at h
      | ok bf =>
        simp only [hbf] at h
        cases htc : env.suggestGasTipCap with
        | error e => simp [htc] at h
        | ok tc =>
          simp only [htc] at h
          cases hest : env.estimateGasBlobTx with
          | error e => simp [hest] at h
          | ok g =>
            simp only [hest, Except.ok.injEq] at h
            subst h
            rfl
    · simp only [hblob, Bool.false_eq_true, if_false] at h
      cases hest : env.estimateGas with
      | error e => simp [hest] at h
      | ok g =>
        simp only [hest, Except.ok.injEq] at h
        subst h
        rfl

/-- The nonce-review step keeps the status and writes at most its own
record. -/
theorem nonceStep_ok (mTx : MonitoredTx) (env : MonitorEnv) (scan : HistoryScan)
    (mTx1 : MonitoredTx) (w1 : List MonitoredTx)
    (h : nonceStep mTx env scan = Except.ok (mTx1, w1)) :
    mTx1.status = mTx.status ∧ (w1 = [] ∨ w1 = [mTx1]) := by
  unfold nonceStep at h
  split at h
  · cases htn : env.txNonce with
    | error e =>
      rw [htn] at h
      simp at h
    | ok nonce =>
      rw [htn] at h
      simp only [Except.ok.injEq, Prod.mk.injEq] at h
      obtain ⟨h1, h2⟩ := h
      subst h1
      subst h2
      refine ⟨?_, Or.inr rfl⟩
      split <;> rfl
  · simp only [Except.ok.injEq, Prod.mk.injEq] at h
    obtain ⟨h1, h2⟩ := h
    subst h1
    subst h2
    exact ⟨rfl, Or.inl rfl⟩

/-- The fee-review step keeps the status and writes at most its own record. -/
theorem reviewStep_ok (mTx : MonitoredTx) (env : MonitorEnv)
    (mTx1 : MonitoredTx) (w : List MonitoredTx)
    (h : reviewStep mTx env = Except.ok (mTx1, w)) :
    mTx1.status = mTx.status ∧ (w = [] ∨ w = [mTx1]) := by
  unfold reviewStep at h
  split at h
  · cases hrev : reviewMonitoredTx mTx env.review with
    | error e =>
      rw [hrev] at h
      simp at h
    | ok mTxr =>
      rw [hrev] at h
      simp only [Except.ok.injEq, Prod.mk.injEq] at h
      obtain ⟨h1, h2⟩ := h
      subst h1
      subst h2
      exact ⟨reviewMonitoredTx_status _ _ _ hrev, Or.inr rfl⟩
  · simp only [Except.ok.injEq, Prod.mk.injEq] at h
    obtain ⟨h1, h2⟩ := h
    subst h1
    subst h2
    exact ⟨rfl, Or.inl rfl⟩

/-- The receipt verdict writes mined or failed (or nothing): a forward step
from a created or sent intent. -/
theorem finalStep_chain (mTx : MonitoredTx) (env : MonitorEnv) (r : ReceiptView)
    (hst : mTx.status = MonitoredTxStatus.created ∨
      mTx.status = MonitoredTxStatus.sent) :
    chainFrom mTx.status ((finalStep mTx env r).map (fun t => t.status)) := by
  unfold finalStep
  split_ifs with h1 h2
  · simp only [List.map_cons, List.map_nil]
    exact chainFrom_single _ _ (by rcases hst with h | h <;> rw [h] <;> rfl)
  · exact chainFrom_nil _
  · simp only [List.map_cons, List.map_nil]
    exact chainFrom_single _ _ (by rcases hst with h | h <;> rw [h] <;> rfl)

/-- Appending the optional created → sent write and the final verdict to a
constant-status prefix keeps the forward chain.  `w4` is either empty (the
local record still holds status s) or the single sent write (then s is
created), and the verdict runs from the record after the send step. -/
theorem tailWrites_chain (s : MonitoredTxStatus) (env : MonitorEnv)
    (w23 : List MonitoredTx) (mTx3 : MonitoredTx) (w4 tail : List MonitoredTx)
    (hst : s = MonitoredTxStatus.created ∨ s = MonitoredTxStatus.sent)
    (hw23 : ∀ x ∈ w23.map (fun t => t.status), x = s)
    (hw4 : (w4 = [] ∧ mTx3.status = s) ∨
      (w4 = [mTx3] ∧ mTx3.status = MonitoredTxStatus.sent ∧
        s = MonitoredTxStatus.created))
    (htail : tail = [] ∨ tail = finalStep mTx3 env ((env.receiptPoll).getD ⟨true, 0⟩)) :
    chainFrom s ((w23 ++ w4 ++ tail).map (fun t => t.status)) := by
  obtain ⟨h23chain, h23last⟩ := chainFrom_const s _ hw23
  have hst3 : mTx3.status = MonitoredTxStatus.created ∨
      mTx3.status = MonitoredTxStatus.sent := by
    rcases hw4 with ⟨_, h⟩ | ⟨_, h, _⟩
    · rw [h]; exact hst
    · exact Or.inr h
  have htailchain : chainFrom mTx3.status (tail.map (fun t => t.status)) := by
    rcases htail with h | h
    · subst h; exact chainFrom_nil _
    · subst h; exact finalStep_chain mTx3 env _ hst3
  rw [List.map_append, List.map_append]
  refine chainFrom_append s _ _ ?_ ?_
  · refine chainFrom_append s _ _ h23chain ?_
    rw [h23last]
    rcases hw4 with ⟨h4, h3⟩ | ⟨h4, h3, hs⟩
    · subst h4; exact chainFrom_nil _
    · subst h4
      simp only [List.map_cons, List.map_nil, h3]
      exact chainFrom_single _ _ (by rw [hs]; rfl)
  · have hlast : lastD ((w23.map fun t => t.status) ++ w4.map fun t => t.status) s
        = mTx3.status := by
      rcases hw4 with ⟨h4, h3⟩ | ⟨h4, h3, hs⟩
      · subst h4
        simp only [List.map_nil, List.append_nil]
        rw [h23last, h3]
      · subst h4
        simp only [List.map_cons, List.map_nil]
        unfold lastD
        rw [List.getLast?_append]
        simp
    rw [hlast]
    exact htailchain

/-- The send path after the history step: whatever the send, wait and
receipt outcomes are, the remaining writes extend a constant-status prefix
forward. -/
theorem sendPath_chain_after (s : MonitoredTxStatus) (env : MonitorEnv)
    (mTx2 : MonitoredTx) (w23 : List MonitoredTx)
    (hst : s = MonitoredTxStatus.created ∨ s = MonitoredTxStatus.sent)
    (h2 : mTx2.status = s)
    (hw23 : ∀ x ∈ w23.map (fun t => t.status), x = s) :
    chainFrom s ((match
        (if env.getTxNotFound then
          if env.sendOk then
            if mTx2.status = MonitoredTxStatus.created then
              some ({ mTx2 with status := MonitoredTxStatus.sent },
                [{ mTx2 with status := MonitoredTxStatus.sent }])
            else some (mTx2, [])
          else none
        else some (mTx2, []))
      with
      | none => w23
      | some (mTx3, w4) =>
        match env.waitMined with
        | Except.error _ => w23 ++ w4
        | Except.ok false => w23 ++ w4
        | Except.ok true =>
          match env.receiptPoll with
          | none => w23 ++ w4
          | some r => w23 ++ w4 ++ finalStep mTx3 env r).map
      (fun (t : MonitoredTx) => t.status)) := by
  have happly : ∀ (mTx3 : MonitoredTx) (w4 tail : List MonitoredTx),
      ((w4 = [] ∧ mTx3.status = s) ∨
        (w4 = [mTx3] ∧ mTx3.status = MonitoredTxStatus.sent ∧
          s = MonitoredTxStatus.created)) →
      (tail = [] ∨
        tail = finalStep mTx3 env ((env.receiptPoll).getD ⟨true, 0⟩)) →
      chainFrom s ((w23 ++ w4 ++ tail).map (fun t => t.status)) :=
    fun mTx3 w4 tail h4 ht =>
      tailWrites_chain s env w23 mTx3 w4 tail hst hw23 h4 ht
  cases hgt : env.getTxNotFound with
  | false =>
    simp only [Bool.false_eq_true, if_false]
    cases hwm : env.waitMined with
    | error e => simpa using happly mTx2 [] [] (Or.inl ⟨rfl, h2⟩) (Or.inl rfl)
    | ok c =>
      cases c with
      | false => simpa using happly mTx2 [] [] (Or.inl ⟨rfl, h2⟩) (Or.inl rfl)
      | true =>
        cases hrp : env.receiptPoll with
        | none => simpa using happly mTx2 [] [] (Or.inl ⟨rfl, h2⟩) (Or.inl rfl)
        | some r =>
          simpa using happly mTx2 [] (finalStep mTx2 env r)
            (Or.inl ⟨rfl, h2⟩) (Or.inr (by rw [hrp]; rfl))
  | true =>
    simp only [if_true]
    cases hsk : env.sendOk with
    | false =>
      simp only [Bool.false_eq_true, if_false]
      simpa using happly mTx2 [] [] (Or.inl ⟨rfl, h2⟩) (Or.inl rfl)
    | true =>
      simp only [if_true]
      by_cases hsc : mTx2.status = MonitoredTxStatus.created
      · rw [if_pos hsc]
        have hs : s = MonitoredTxStatus.created := by rw [← h2, hsc]
        cases hwm : env.waitMined with
        | error e =>
          simpa using happly { mTx2 with status := MonitoredTxStatus.sent }
            [{ mTx2 with status := MonitoredTxStatus.sent }] []
            (Or.inr ⟨rfl, rfl, hs⟩) (Or.inl rfl)
        | ok c =>
          cases c with
          | false =>
            simpa using happly { mTx2 with status := MonitoredTxStatus.sent }
              [{ mTx2 with status := MonitoredTxStatus.sent }] []
              (Or.inr ⟨rfl, rfl, hs⟩) (Or.inl rfl)
          | true =>
            cases hrp : env.receiptPoll with
            | none =>
              simpa using happly { mTx2 with status := MonitoredTxStatus.sent }
                [{ mTx2 with status := MonitoredTxStatus.sent }] []
                (Or.inr ⟨rfl, rfl, hs⟩) (Or.inl rfl)
            | some r =>
              simpa using happly { mTx2 with status := MonitoredTxStatus.sent }
                [{ mTx2 with status := MonitoredTxStatus.sent }]
                (finalStep { mTx2 with status := MonitoredTxStatus.sent } env r)
                (Or.inr ⟨rfl, rfl, hs⟩) (Or.inr (by rw [hrp]; rfl))
      · rw [if_neg hsc]
        cases hwm : env.waitMined with
        | error e => simpa using happly mTx2 [] [] (Or.inl ⟨rfl, h2⟩) (Or.inl rfl)
        | ok c =>
          cases c with
          | false =>
            simpa using happly mTx2 [] [] (Or.inl ⟨rfl, h2⟩) (Or.inl rfl)
          | true =>
            cases hrp : env.receiptPoll with
            | none =>
              simpa using happly mTx2 [] [] (Or.inl ⟨rfl, h2⟩) (Or.inl rfl)
            | some r =>
              simpa using happly mTx2 [] (finalStep mTx2 env r)
                (Or.inl ⟨rfl, h2⟩) (Or.inr (by rw [hrp]; rfl))

/-- Every write of the send path is a forward step from the stored status of
a created or sent intent. -/
theorem sendPath_chain (mTx : MonitoredTx) (env : MonitorEnv)
    (hst : mTx.status = MonitoredTxStatus.created ∨
      mTx.status = MonitoredTxStatus.sent) :
    chainFrom mTx.status ((sendPathWrites mTx env).map (fun t => t.status)) := by
  unfold sendPathWrites
  cases hrev : reviewStep mTx env with
  | error e => exact chainFrom_nil _
  | ok p =>
    obtain ⟨mTx1, w2⟩ := p
    obtain ⟨hr1, hr2⟩ := reviewStep_ok mTx env mTx1 w2 hrev
    have hw2 : ∀ x ∈ w2.map (fun t => t.status), x = mTx.status := by
      intro x hx
      rcases List.mem_map.mp hx with ⟨t, ht, hxe⟩
      rcases hr2 with h | h
      · subst h
        simp at ht
      · subst h
        simp at ht
        subst ht
        rw [← hxe, hr1]
    cases hsig : env.signedHash with
    | error e => exact (chainFrom_const mTx.status _ hw2).1
    | ok signedHash =>
      by_cases hmem : signedHash ∈ mTx1.history
      all_goals
        simp only [hmem, if_true, if_false, ite_true, ite_false,
          reduceIte, not_true, not_false_iff]
      case pos =>
        simp only [List.append_nil]
        exact sendPath_chain_after mTx.status env mTx1 w2 hst hr1 hw2
      case neg =>
        refine sendPath_chain_after mTx.status env
          { mTx1 with history := mTx1.history ++ [signedHash] }
          (w2 ++ [{ mTx1 with history := mTx1.history ++ [signedHash] }])
          hst hr1 ?_
        intro x hx
        rw [List.map_append] at hx
        rcases List.mem_append.mp hx with hx2 | hx3
        · exact hw2 x hx2
        · simp at hx3
          rw [hx3, hr1]

/-- Every write of one monitorTx call is a forward step from the stored
status of a created or sent intent. -/
theorem monitorTx_chain (mTx : MonitoredTx) (env : MonitorEnv)
    (hst : mTx.status = MonitoredTxStatus.created ∨
      mTx.status = MonitoredTxStatus.sent) :
    chainFrom mTx.status ((monitorTxWrites mTx env).map (fun t => t.status)) := by
  simp only [monitorTxWrites]
  cases hns : nonceStep mTx env (scanHistoryAux env false false true none mTx.history) with
  | error e => exact chainFrom_nil _
  | ok p =>
    obtain ⟨mTx1, w1⟩ := p
    obtain ⟨h1, hw1⟩ := nonceStep_ok mTx env _ mTx1 w1 hns
    have hw1s : ∀ x ∈ w1.map (fun t => t.status), x = mTx.status := by
      intro x hx
      rcases List.mem_map.mp hx with ⟨t, ht, hxe⟩
      rcases hw1 with h | h
      · subst h
        simp at ht
      · subst h
        simp at ht
        subst ht
        rw [← hxe, h1]
    obtain ⟨h1chain, h1last⟩ := chainFrom_const mTx.status _ hw1s
    have hst1 : mTx1.status = MonitoredTxStatus.created ∨
        mTx1.status = MonitoredTxStatus.sent := by
      rw [h1]; exact hst
    split
    · exact chainFrom_nil _
    next mTx2 w2 heq =>
      simp only [Except.ok.injEq, Prod.mk.injEq] at heq
      obtain ⟨he1, he2⟩ := heq
      subst he1
      subst he2
      split
      · split
        · rw [List.map_append]
          refine chainFrom_append mTx.status _ _ h1chain ?_
          rw [h1last, ← h1]
          exact finalStep_chain mTx1 env _ hst1
        · exact h1chain
      · rw [List.map_append]
        refine chainFrom_append mTx.status _ _ h1chain ?_
        rw [h1last, ← h1]
        exact sendPath_chain mTx1 env hst1

/-- Every write of one engine step — a submission sweep, a mined-to-safe
sweep or a safe-to-finalized sweep — is a forward step from the stored
status, whatever that status is. -/
theorem engineStep_chain (mTx : MonitoredTx) (s : EngineStep) :
    chainFrom mTx.status ((engineStepWrites mTx s).map (fun t => t.status)) := by
  cases s with
  | submission env =>
    simp only [engineStepWrites]
    split_ifs with h
    · exact monitorTx_chain mTx env h
    · exact chainFrom_nil _
  | minedToSafe cfg senv =>
    simp only [engineStepWrites]
    split_ifs with h
    · simp only [List.map_cons, List.map_nil]
      exact chainFrom_single _ _ (by rw [h.1]; rfl)
    · exact chainFrom_nil _
  | safeToFinalized cfg senv =>
    simp only [engineStepWrites]
    split_ifs with h
    · simp only [List.map_cons, List.map_nil]
      exact chainFrom_single _ _ (by rw [h.1]; rfl)
    · exact chainFrom_nil _

/-- The last status of a mapped write list is the status of the last
written record, defaulting to the stored one. -/
theorem lastD_map_status (ws : List MonitoredTx) (mTx : MonitoredTx) :
    lastD (ws.map (fun t => t.status)) mTx.status
      = (ws.getLast?.getD mTx).status := by
  unfold lastD
  rw [List.getLast?_map]
  cases ws.getLast? <;> rfl

/-- C2: across every sequence of engine steps (submission, mined-to-safe and
safe-to-finalized sweeps) the persisted statuses of an intent form a forward
chain under created → sent → {mined → safe → finalized} | failed — each
write, error paths included, never moves below the status already persisted,
and the only self-step a sent intent takes is sent → sent after
re-pricing. -/
theorem engine_status_monotone (mTx : MonitoredTx) (steps : List EngineStep) :
    chainFrom mTx.status
      ((engineRunWrites mTx steps).map (fun t => t.status)) := by
  induction steps generalizing mTx with
  | nil => exact chainFrom_nil _
  | cons s ss ih =>
    unfold engineRunWrites
    rw [List.map_append]
    refine chainFrom_append mTx.status _ _ (engineStep_chain mTx s) ?_
    rw [lastD_map_status]
    exact ih ((engineStepWrites mTx s).getLast?.getD mTx)

end EthTxManager
